import Mathlib

/-!
Verification of the gittyup core (directory scanner, git update/classification
engine, summary aggregation) against its specification.

The Python sources are shallowly embedded:
* Python strings become `String`; `str.strip()`, `in` (substring) and
  `str.startswith` are modelled on the underlying character lists
  (`pyStrip`, `strContains`, `strStartsWith`).
* The filesystem seen by the scanner becomes the inductive tree `FSTree`;
  a directory node carries its name, whether it is a symbolic link, whether
  listing it succeeds (`listable = false` models `iterdir` raising
  `PermissionError`/`OSError`), and its children.
* `subprocess.run` outcomes become the inductive `ProcResult`
  (normal completion with exit code / stdout / stderr, `TimeoutExpired`,
  `SubprocessError`, or any other exception).
* Fallible functions return `Except`/`Option`.
-/

/-! ## Python string primitives -/

/-- Python `sub in s` on character lists: `pat` occurs contiguously in `l`. -/
def infixOf (pat : List Char) : List Char → Bool
  | [] => pat.isEmpty
  | c :: rest => pat.isPrefixOf (c :: rest) || infixOf pat rest

/-- Python `sub in s` (substring test) on strings. -/
def strContains (hay pat : String) : Bool :=
  infixOf pat.data hay.data

/-- Python `s.startswith(p)` on strings. -/
def strStartsWith (s p : String) : Bool :=
  p.data.isPrefixOf s.data

/-- Python `str.strip()` on a character list: drop whitespace from both ends. -/
def pyStripList (l : List Char) : List Char :=
  ((l.dropWhile Char.isWhitespace).reverse.dropWhile Char.isWhitespace).reverse

/-- Python `str.strip()` on strings. -/
def pyStrip (s : String) : String :=
  ⟨pyStripList s.data⟩

theorem isPrefixOf_eq_true_iff (l₁ l₂ : List Char) :
    l₁.isPrefixOf l₂ = true ↔ l₁ <+: l₂ :=
  List.isPrefixOf_iff_prefix

theorem infixOf_iff (pat l : List Char) : infixOf pat l = true ↔ pat <:+: l := by
  induction l with
  | nil =>
    constructor
    · intro h
      have hp : pat = [] := by simpa [infixOf, List.isEmpty_iff] using h
      subst hp; exact List.nil_infix
    · intro h
      have hp : pat = [] := List.eq_nil_of_infix_nil h
      subst hp; simp [infixOf]
  | cons c rest ih =>
    simp only [infixOf, Bool.or_eq_true, isPrefixOf_eq_true_iff, ih]
    constructor
    · rintro (h | h)
      · exact h.isInfix
      · exact List.infix_cons h
    · rintro ⟨s, t, hst⟩
      match s with
      | [] => exact Or.inl ⟨t, by simpa using hst⟩
      | a :: s' =>
        right
        rw [List.cons_append, List.cons_append] at hst
        injection hst with h1 h2
        exact ⟨s', t, h2⟩

theorem strContains_iff (hay pat : String) :
    strContains hay pat = true ↔ pat.data <:+: hay.data := by
  simp [strContains, infixOf_iff]

/-! ## Data model (`gittyup/models.py`) -/

/-- Embeds `RepoState` (`models.py`): terminal classification of one repository. -/
inductive RepoState where
  | success
  | skipped
  | failed
  | dry_run
deriving DecidableEq, Repr

/-- Embeds `UpdateStrategy` (`models.py`). -/
inductive UpdateStrategy where
  | pull
  | fetch
  | rebase
deriving DecidableEq, Repr

/-- Embeds `RepoStatus` (`models.py`): the per-repository result record.
Paths are modelled as lists of path components. -/
structure RepoStatus where
  path : List String
  state : RepoState
  branch : Option String := none
  message : String := ""
  error : Option String := none
  has_uncommitted_changes : Bool := false
  commits_pulled : Nat := 0
deriving DecidableEq, Repr

/-- Embeds `SummaryStats` (`models.py`).  `duration_seconds` (a Python float
that `add_result` never touches) is modelled as a rational. -/
structure SummaryStats where
  repos_found : Nat := 0
  repos_updated : Nat := 0
  repos_already_up_to_date : Nat := 0
  repos_skipped : Nat := 0
  repos_failed : Nat := 0
  duration_seconds : Rat := 0
  results : List RepoStatus := []
deriving DecidableEq, Repr

/-- Embeds `SummaryStats.add_result` (`models.py` lines 86-102), with the
in-place mutation turned into a state-passing function.  The Python `match`
has no `DRY_RUN` arm, so a dry-run result only appends to `results`. -/
def SummaryStats.add_result (s : SummaryStats) (result : RepoStatus) : SummaryStats :=
  let s := { s with results := s.results ++ [result] }
  match result.state with
  | RepoState.success =>
    if result.commits_pulled == 0 && strContains result.message "Already up to date" then
      { s with repos_already_up_to_date := s.repos_already_up_to_date + 1 }
    else
      { s with repos_updated := s.repos_updated + 1 }
  | RepoState.skipped => { s with repos_skipped := s.repos_skipped + 1 }
  | RepoState.failed => { s with repos_failed := s.repos_failed + 1 }
  | RepoState.dry_run => s

/-- Folding `add_result` over a list of results, starting from a freshly
constructed (all-defaults) `SummaryStats`. -/
def SummaryStats.addAll (rs : List RepoStatus) : SummaryStats :=
  rs.foldl SummaryStats.add_result {}

theorem add_result_effect (s : SummaryStats) (r : RepoStatus) :
    (s.add_result r).results = s.results ++ [r] ∧
    (s.add_result r).repos_found = s.repos_found ∧
    (s.add_result r).duration_seconds = s.duration_seconds ∧
    (s.add_result r).repos_updated + (s.add_result r).repos_already_up_to_date +
        (s.add_result r).repos_skipped + (s.add_result r).repos_failed =
      s.repos_updated + s.repos_already_up_to_date + s.repos_skipped + s.repos_failed +
        (if r.state = RepoState.dry_run then 0 else 1) := by
  unfold SummaryStats.add_result
  cases hst : r.state <;> simp
  · split <;> simp <;> omega
  all_goals omega

theorem addAll_go (rs : List RepoStatus) (s : SummaryStats) :
    (rs.foldl SummaryStats.add_result s).results = s.results ++ rs ∧
    (rs.foldl SummaryStats.add_result s).repos_found = s.repos_found ∧
    (rs.foldl SummaryStats.add_result s).duration_seconds = s.duration_seconds ∧
    (rs.foldl SummaryStats.add_result s).repos_updated +
        (rs.foldl SummaryStats.add_result s).repos_already_up_to_date +
        (rs.foldl SummaryStats.add_result s).repos_skipped +
        (rs.foldl SummaryStats.add_result s).repos_failed =
      s.repos_updated + s.repos_already_up_to_date + s.repos_skipped + s.repos_failed +
        (rs.filter (fun r => r.state ≠ RepoState.dry_run)).length := by
  induction rs generalizing s with
  | nil => simp
  | cons r rest ih =>
    obtain ⟨h1, h2, h3, h4⟩ := add_result_effect s r
    obtain ⟨g1, g2, g3, g4⟩ := ih (s.add_result r)
    refine ⟨?_, ?_, ?_, ?_⟩
    · simp only [List.foldl_cons, g1, h1, List.append_assoc, List.singleton_append]
    · simp only [List.foldl_cons, g2, h2]
    · simp only [List.foldl_cons, g3, h3]
    · simp only [List.foldl_cons, g4, h4, List.filter_cons]
      by_cases hd : r.state = RepoState.dry_run <;> simp [hd] <;> omega

theorem add_result_success_eq (s : SummaryStats) (r : RepoStatus)
    (hs : r.state = RepoState.success) :
    s.add_result r =
      if r.commits_pulled = 0 ∧ strContains r.message "Already up to date" = true then
        { s with results := s.results ++ [r],
                 repos_already_up_to_date := s.repos_already_up_to_date + 1 }
      else
        { s with results := s.results ++ [r],
                 repos_updated := s.repos_updated + 1 } := by
  unfold SummaryStats.add_result
  rw [hs]
  by_cases hc : r.commits_pulled = 0 <;>
    by_cases hm : strContains r.message "Already up to date" = true <;>
      simp [hc, hm]

/-- C1: for a Success result, `add_result` increments
`repos_already_up_to_date` (and leaves `repos_updated` alone) exactly when
`commits_pulled == 0` and the message contains the substring
"Already up to date"; in every other Success case it increments
`repos_updated` and leaves `repos_already_up_to_date` alone. -/
theorem add_result_success_classification (s : SummaryStats) (r : RepoStatus)
    (hs : r.state = RepoState.success) :
    (((s.add_result r).repos_already_up_to_date = s.repos_already_up_to_date + 1 ∧
        (s.add_result r).repos_updated = s.repos_updated) ↔
      (r.commits_pulled = 0 ∧ strContains r.message "Already up to date" = true)) ∧
    (¬(r.commits_pulled = 0 ∧ strContains r.message "Already up to date" = true) →
      ((s.add_result r).repos_updated = s.repos_updated + 1 ∧
        (s.add_result r).repos_already_up_to_date = s.repos_already_up_to_date)) := by
  rw [add_result_success_eq s r hs]
  by_cases h : r.commits_pulled = 0 ∧ strContains r.message "Already up to date" = true
  · simp [h]
  · rw [if_neg h]
    refine ⟨?_, fun _ => ⟨rfl, rfl⟩⟩
    simp only [h, iff_false, not_and]
    intro habs
    simp at habs

/-- Witness for C1: a concrete Success result with `commits_pulled = 0` and
message "Already up to date" bumps `repos_already_up_to_date` to 1 and leaves
`repos_updated` at 0. -/
theorem add_result_success_classification_witness :
    (({} : SummaryStats).add_result
        { path := [], state := RepoState.success,
          message := "Already up to date" }).repos_already_up_to_date =
      ({} : SummaryStats).repos_already_up_to_date + 1 ∧
    (({} : SummaryStats).add_result
        { path := [], state := RepoState.success,
          message := "Already up to date" }).repos_updated =
      ({} : SummaryStats).repos_updated :=
  (add_result_success_classification ({} : SummaryStats)
      { path := [], state := RepoState.success, message := "Already up to date" }
      rfl).1.mpr ⟨rfl, by decide⟩

/-- C9: starting from a freshly constructed `SummaryStats`, after any sequence
of `add_result` calls the four outcome counters sum to the number of non-DryRun
results, the `results` list is exactly the sequence of added results, and
`repos_found` and `duration_seconds` keep their initial values; moreover each
individual `add_result` call appends exactly one element to `results` and
leaves `repos_found` and `duration_seconds` unchanged. -/
theorem addAll_counter_invariant (rs : List RepoStatus) :
    ((SummaryStats.addAll rs).repos_updated +
        (SummaryStats.addAll rs).repos_already_up_to_date +
        (SummaryStats.addAll rs).repos_skipped +
        (SummaryStats.addAll rs).repos_failed =
      (rs.filter (fun r => r.state ≠ RepoState.dry_run)).length) ∧
    (SummaryStats.addAll rs).results = rs ∧
    (SummaryStats.addAll rs).repos_found = 0 ∧
    (SummaryStats.addAll rs).duration_seconds = 0 ∧
    (∀ (s : SummaryStats) (r : RepoStatus),
      (s.add_result r).results = s.results ++ [r] ∧
      (s.add_result r).repos_found = s.repos_found ∧
      (s.add_result r).duration_seconds = s.duration_seconds) := by
  obtain ⟨h1, h2, h3, h4⟩ := addAll_go rs {}
  refine ⟨by simpa [SummaryStats.addAll] using h4, by simpa [SummaryStats.addAll] using h1,
    by simpa [SummaryStats.addAll] using h2, by simpa [SummaryStats.addAll] using h3,
    fun s r => ?_⟩
  obtain ⟨g1, g2, g3, -⟩ := add_result_effect s r
  exact ⟨g1, g2, g3⟩

/-! ## Scanner (`src/gittyup/scanner.py`) -/

/-- Filesystem tree as the scanner observes it.  A directory node records its
name, whether it is a symbolic link (`entry.is_symlink()`), whether listing
its entries succeeds (`listable = false` models `iterdir` raising
`PermissionError` or another `OSError`), and its child entries. -/
inductive FSTree where
  | file (name : String)
  | dir (name : String) (symlink : Bool) (listable : Bool) (children : List FSTree)

/-- Name of a filesystem entry (`entry.name`). -/
def FSTree.name : FSTree → String
  | .file n => n
  | .dir n _ _ _ => n

/-- Embeds the repository test `git_dir.exists() and git_dir.is_dir()`
(`scanner.py` lines 87-88): the directory directly contains a subdirectory
named `.git`.  A plain `.git` file does not count (`is_dir()` is false). -/
def isGitRepo : FSTree → Bool
  | .file _ => false
  | .dir _ _ _ cs => cs.any fun c =>
      match c with
      | .dir n _ _ _ => n == ".git"
      | .file _ => false

/-- Embeds the `default_excludes` set of `RepositoryScanner.__init__`
(`scanner.py` lines 34-43). -/
def default_excludes : List String :=
  ["node_modules", "__pycache__", ".venv", "venv", ".tox", "build", "dist"]

/-- Embeds `RepositoryScanner.__init__`'s construction of
`self.exclude_patterns`: the caller's patterns (`None` becomes the empty
list) unioned with the defaults.  The Python value is a `set` used only for
membership tests, so a list modulo membership is a faithful model. -/
def effective_excludes (exclude_patterns : Option (List String)) : List String :=
  exclude_patterns.getD [] ++ default_excludes

/-- Embeds the body of the `for entry in directory.iterdir()` loop of
`RepositoryScanner._scan_directory` (`scanner.py` lines 97-114): files,
symbolic links, excluded names and hidden names are skipped (they contribute
nothing), every other directory entry is scanned recursively (`recurse` is
the recursive call at `current_depth + 1`). -/
def scan_child_entry (excl : List String)
    (recurse : FSTree → List String → List (List String))
    (c : FSTree) (pre : List String) : List (List String) :=
  match c with
  | .file _ => []
  | .dir cn csym cl cch =>
    if csym then []
    else if excl.contains cn then []
    else if strStartsWith cn "." then []
    else recurse (.dir cn csym cl cch) (pre ++ [cn])

/-- The `for entry in directory.iterdir()` loop itself: repositories found
under each child entry, accumulated in order. -/
def scan_children (excl : List String)
    (recurse : FSTree → List String → List (List String)) :
    List FSTree → List String → List (List String)
  | [], _ => []
  | c :: rest, pre =>
    scan_child_entry excl recurse c pre ++ scan_children excl recurse rest pre

/-- Embeds `RepositoryScanner._scan_directory` (`scanner.py` lines 72-121).
The depth counter is carried as the remaining budget
`remaining = max_depth + 1 - current_depth`, so the source's entry guard
`current_depth > self.max_depth` is exactly `remaining = 0` and the recursive
call at `current_depth + 1` runs at `remaining - 1`.  Paths are component
lists relative to the scan root (`pre` is the current directory, a found
repository contributes `pre`).  A directory whose listing raises
(`listable = false`) contributes nothing: the `except PermissionError` /
`except OSError` handlers swallow the error. -/
def scanFrom (excl : List String) : Nat → FSTree → List String → List (List String)
  | 0, _, _ => []
  | remaining + 1, t, pre =>
    if isGitRepo t then [pre]
    else
      match t with
      | .file _ => []
      | .dir _ _ listable cs =>
        if listable then
          scan_children excl (fun c pre' => scanFrom excl remaining c pre') cs pre
        else []

/-- `RepositoryScanner._scan_directory` with the source's
`(directory, current_depth)` calling convention. -/
def scan_directory (max_depth : Nat) (excl : List String) (t : FSTree)
    (current_depth : Nat) (pre : List String) : List (List String) :=
  scanFrom excl (max_depth + 1 - current_depth) t pre

/-- Comparison used by the final `sorted(repositories)`: lexicographic on
path components. -/
def pathLe (a b : List String) : Bool :=
  match a, b with
  | [], _ => true
  | _ :: _, [] => false
  | x :: xs, y :: ys => if x = y then pathLe xs ys else decide (x < y)

/-- The two `ScanError` causes that `scan` raises itself. -/
inductive ScanErrorKind where
  | pathDoesNotExist
  | notADirectory
deriving DecidableEq, Repr

/-- Embeds `RepositoryScanner.scan` (`scanner.py` lines 46-71): fail when the
root does not exist (`root = none`) or is a file, otherwise run
`_scan_directory` at depth 0 and return the sorted result. -/
def scan (root : Option FSTree) (max_depth : Nat)
    (exclude_patterns : Option (List String)) :
    Except ScanErrorKind (List (List String)) :=
  match root with
  | none => .error .pathDoesNotExist
  | some (.file _) => .error .notADirectory
  | some (.dir n sym listable cs) =>
    .ok ((scan_directory max_depth (effective_excludes exclude_patterns)
        (.dir n sym listable cs) 0 []).mergeSort pathLe)

/-- Well-formed directory tree: sibling names are distinct (true of every
real filesystem directory). -/
inductive WFTree : FSTree → Prop where
  | file (n : String) : WFTree (.file n)
  | dir (n : String) (s l : Bool) (cs : List FSTree) :
      (cs.map FSTree.name).Nodup → (∀ c ∈ cs, WFTree c) → WFTree (.dir n s l cs)

/-- A repository is reachable by the scanner along path `q` from `t`: every
intermediate directory is a listable non-repository, each step is a
non-symlink directory whose name is neither excluded nor hidden, and the
final directory is a repository. -/
def reachableRepo (excl : List String) : FSTree → List String → Bool
  | t, [] => isGitRepo t
  | .file _, _ :: _ => false
  | .dir n s listable cs, step :: rest =>
    if isGitRepo (.dir n s listable cs) then false
    else if !listable then false
    else
      match cs.find? (fun c => c.name == step) with
      | none => false
      | some (.file _) => false
      | some (.dir cn csym cl cch) =>
        !csym && !(excl.contains cn) && !(strStartsWith cn ".") &&
          reachableRepo excl (.dir cn csym cl cch) rest

theorem scanFrom_zero (excl : List String) (t : FSTree) (pre : List String) :
    scanFrom excl 0 t pre = [] := rfl

theorem scanFrom_succ_file (excl : List String) (fuel : Nat) (n : String)
    (pre : List String) :
    scanFrom excl (fuel + 1) (.file n) pre = [] := rfl

theorem scanFrom_succ_dir (excl : List String) (fuel : Nat) (n : String) (sy li : Bool)
    (cs : List FSTree) (pre : List String) :
    scanFrom excl (fuel + 1) (.dir n sy li cs) pre =
      if isGitRepo (.dir n sy li cs) then [pre]
      else if li then
        scan_children excl (fun c pre' => scanFrom excl fuel c pre') cs pre
      else [] := rfl

theorem reachableRepo_nil (excl : List String) (t : FSTree) :
    reachableRepo excl t [] = isGitRepo t := by
  cases t <;> rfl

theorem reachableRepo_cons_file (excl : List String) (n : String) (step : String)
    (rest : List String) :
    reachableRepo excl (.file n) (step :: rest) = false := rfl

theorem reachableRepo_cons_dir (excl : List String) (n : String) (sy li : Bool)
    (cs : List FSTree) (step : String) (rest : List String) :
    reachableRepo excl (.dir n sy li cs) (step :: rest) =
      (if isGitRepo (.dir n sy li cs) then false
      else if !li then false
      else
        match cs.find? (fun c => c.name == step) with
        | none => false
        | some (.file _) => false
        | some (.dir cn csym cl cch) =>
          !csym && !(excl.contains cn) && !(strStartsWith cn ".") &&
            reachableRepo excl (.dir cn csym cl cch) rest) := rfl


theorem find_name_eq (cs : List FSTree) (hnd : (cs.map FSTree.name).Nodup)
    {c : FSTree} (hc : c ∈ cs) :
    cs.find? (fun x => x.name == c.name) = some c := by
  induction cs with
  | nil => cases hc
  | cons d rest ih =>
    rw [List.map_cons, List.nodup_cons] at hnd
    rcases List.mem_cons.mp hc with rfl | hc'
    · rw [List.find?_cons_of_pos _ (by simp)]
    · have hne : (d.name == c.name) = false := by
        simp only [beq_eq_false_iff_ne, ne_eq]
        intro h
        exact hnd.1 (h ▸ List.mem_map_of_mem FSTree.name hc')
      rw [List.find?_cons_of_neg _ (by simp [hne])]
      exact ih hnd.2 hc'

theorem scan_child_entry_mem (excl : List String) (fuel : Nat) (c : FSTree)
    (pre p : List String) (hwf : WFTree c)
    (IH : ∀ t : FSTree, WFTree t → ∀ pre' p' : List String,
      (p' ∈ scanFrom excl fuel t pre' ↔
        ∃ q, p' = pre' ++ q ∧ reachableRepo excl t q = true ∧ q.length < fuel)) :
    p ∈ scan_child_entry excl (fun c pre' => scanFrom excl fuel c pre') c pre ↔
      ∃ cn csym cl cch, c = FSTree.dir cn csym cl cch ∧ csym = false ∧
        excl.contains cn = false ∧ strStartsWith cn "." = false ∧
        ∃ q, p = pre ++ cn :: q ∧ reachableRepo excl c q = true ∧ q.length < fuel := by
  match c with
  | FSTree.file fn => simp [scan_child_entry]
  | FSTree.dir cn csym cl cch =>
    by_cases h1 : csym = true
    · rw [scan_child_entry, if_pos h1]
      simp [h1]
    · by_cases h2 : excl.contains cn = true
      · rw [scan_child_entry, if_neg h1, if_pos h2]
        have h2' : cn ∈ excl := by simpa using h2
        simp [h2']
      · by_cases h3 : strStartsWith cn "." = true
        · rw [scan_child_entry, if_neg h1, if_neg h2, if_pos h3]
          simp [h3]
        · rw [scan_child_entry, if_neg h1, if_neg h2, if_neg h3,
            IH (FSTree.dir cn csym cl cch) hwf (pre ++ [cn]) p]
          constructor
          · rintro ⟨q, rfl, hq, hlen⟩
            exact ⟨cn, csym, cl, cch, rfl, by simpa using h1, by simpa using h2,
              by simpa using h3, q, by simp, hq, hlen⟩
          · rintro ⟨cn', csym', cl', cch', heq, -, -, -, q, hp, hq, hlen⟩
            injection heq with e1 e2 e3 e4
            subst e1
            exact ⟨q, by simp [hp], hq, hlen⟩

theorem scan_children_mem (excl : List String) (fuel : Nat) (cs : List FSTree)
    (pre p : List String)
    (IH : ∀ t : FSTree, WFTree t → ∀ pre' p' : List String,
      (p' ∈ scanFrom excl fuel t pre' ↔
        ∃ q, p' = pre' ++ q ∧ reachableRepo excl t q = true ∧ q.length < fuel))
    (hwfc : ∀ c ∈ cs, WFTree c) :
    p ∈ scan_children excl (fun c pre' => scanFrom excl fuel c pre') cs pre ↔
      ∃ c ∈ cs, ∃ cn csym cl cch, c = FSTree.dir cn csym cl cch ∧ csym = false ∧
        excl.contains cn = false ∧ strStartsWith cn "." = false ∧
        ∃ q, p = pre ++ cn :: q ∧ reachableRepo excl c q = true ∧ q.length < fuel := by
  induction cs with
  | nil => simp [scan_children]
  | cons c rest ih =>
    have hrest := ih (fun d hd => hwfc d (List.mem_cons_of_mem c hd))
    have hhead := scan_child_entry_mem excl fuel c pre p
      (hwfc c (List.mem_cons_self c rest)) IH
    rw [scan_children, List.mem_append, hhead, hrest]
    constructor
    · rintro (h | ⟨c', hc', hP⟩)
      · exact ⟨c, List.mem_cons_self c rest, h⟩
      · exact ⟨c', List.mem_cons_of_mem c hc', hP⟩
    · rintro ⟨c', hc', hP⟩
      rcases List.mem_cons.mp hc' with rfl | hmem
      · exact Or.inl hP
      · exact Or.inr ⟨c', hmem, hP⟩

theorem scanFrom_mem (excl : List String) (fuel : Nat) :
    ∀ t : FSTree, WFTree t → ∀ pre p : List String,
      (p ∈ scanFrom excl fuel t pre ↔
        ∃ q, p = pre ++ q ∧ reachableRepo excl t q = true ∧ q.length < fuel) := by
  induction fuel with
  | zero => intro t hwf pre p; simp [scanFrom_zero]
  | succ fuel ih =>
    intro t hwf pre p
    by_cases hrepo : isGitRepo t = true
    · have hscan : scanFrom excl (fuel + 1) t pre = [pre] := by
        cases t with
        | file n => simp [isGitRepo] at hrepo
        | dir n sy li cs => rw [scanFrom_succ_dir, if_pos hrepo]
      rw [hscan]
      constructor
      · intro h
        rw [List.mem_singleton] at h
        exact ⟨[], by simp [h], by rw [reachableRepo_nil]; exact hrepo, Nat.succ_pos _⟩
      · rintro ⟨q, rfl, hq, -⟩
        cases q with
        | nil => simp
        | cons s r =>
          exfalso
          cases t with
          | file n => simp [isGitRepo] at hrepo
          | dir n sy li cs => rw [reachableRepo_cons_dir, if_pos hrepo] at hq; exact Bool.false_ne_true hq
    · cases t with
      | file n =>
        rw [scanFrom_succ_file]
        constructor
        · intro h; exact absurd h (List.not_mem_nil p)
        · rintro ⟨q, -, hq, -⟩
          exfalso
          cases q with
          | nil => rw [reachableRepo_nil] at hq; exact hrepo hq
          | cons s r => rw [reachableRepo_cons_file] at hq; exact Bool.false_ne_true hq
      | dir n sy li cs =>
        cases hwf with
        | dir _ _ _ _ hnd hwfc =>
        by_cases hli : li = true
        · subst hli
          rw [scanFrom_succ_dir, if_neg hrepo, if_pos rfl]
          rw [scan_children_mem excl fuel cs pre p ih hwfc]
          constructor
          · rintro ⟨c, hc, cn, csym, cl, cch, rfl, hsym, hexcl, hhid, q, rfl, hq, hlen⟩
            subst hsym
            refine ⟨cn :: q, rfl, ?_, by simpa using Nat.succ_lt_succ hlen⟩
            rw [reachableRepo_cons_dir, if_neg hrepo]
            have hfind : cs.find? (fun c => c.name == cn) = some (FSTree.dir cn false cl cch) :=
              find_name_eq cs hnd hc
            rw [if_neg (by simp), hfind]
            have hexcl' : cn ∉ excl := by simpa using hexcl
            simp [hexcl, hexcl', hhid, hq]
          · rintro ⟨q, rfl, hq, hlen⟩
            cases q with
            | nil =>
              exfalso
              rw [reachableRepo_nil] at hq
              exact hrepo hq
            | cons step rst =>
              rw [reachableRepo_cons_dir, if_neg hrepo, if_neg (by simp)] at hq
              rcases hfind : cs.find? (fun c => c.name == step) with - | d
              · rw [hfind] at hq; exact absurd hq (by simp)
              · rw [hfind] at hq
                have hdmem : d ∈ cs := List.mem_of_find?_eq_some hfind
                have hdname : d.name = step := by
                  have := List.find?_some hfind
                  simpa using this
                cases d with
                | file fn => exact absurd hq (by simp)
                | dir dn dsym dl dch =>
                  simp only [Bool.and_eq_true, Bool.not_eq_true'] at hq
                  obtain ⟨⟨⟨hsym, hexcl⟩, hhid⟩, hreach⟩ := hq
                  have hdn : dn = step := by simpa [FSTree.name] using hdname
                  subst hdn
                  exact ⟨_, hdmem, dn, dsym, dl, dch, rfl, hsym, hexcl, hhid, rst,
                    rfl, hreach, by simp only [List.length_cons] at hlen; omega⟩
        · have hli' : li = false := by simpa using hli
          subst hli'
          rw [scanFrom_succ_dir, if_neg hrepo]
          simp only [Bool.false_eq_true, if_false]
          constructor
          · intro h; exact absurd h (List.not_mem_nil p)
          · rintro ⟨q, -, hq, -⟩
            exfalso
            cases q with
            | nil => rw [reachableRepo_nil] at hq; exact hrepo hq
            | cons step rst =>
              rw [reachableRepo_cons_dir, if_neg hrepo] at hq
              simp at hq

theorem scan_some_dir (n : String) (sy li : Bool) (cs : List FSTree)
    (max_depth : Nat) (patterns : Option (List String)) :
    scan (some (FSTree.dir n sy li cs)) max_depth patterns =
      Except.ok ((scan_directory max_depth (effective_excludes patterns)
        (FSTree.dir n sy li cs) 0 []).mergeSort pathLe) := rfl

theorem reachableRepo_extend (excl : List String) (q : List String) :
    ∀ t : FSTree, reachableRepo excl t q = true →
      ∀ (step : String) (rest : List String),
        reachableRepo excl t (q ++ step :: rest) = false := by
  induction q with
  | nil =>
    intro t hq step rest
    rw [reachableRepo_nil] at hq
    cases t with
    | file n => simp [isGitRepo] at hq
    | dir n sy li cs =>
      rw [List.nil_append, reachableRepo_cons_dir, if_pos hq]
  | cons s q' ih =>
    intro t hq step rest
    cases t with
    | file n => rw [reachableRepo_cons_file] at hq; exact absurd hq (by simp)
    | dir n sy li cs =>
      rw [List.cons_append, reachableRepo_cons_dir]
      rw [reachableRepo_cons_dir] at hq
      by_cases h1 : isGitRepo (FSTree.dir n sy li cs) = true
      · rw [if_pos h1] at hq; exact absurd hq (by simp)
      · rw [if_neg h1] at hq ⊢
        by_cases h2 : (!li) = true
        · rw [if_pos h2] at hq; exact absurd hq (by simp)
        · rw [if_neg h2] at hq ⊢
          rcases hfind : cs.find? (fun c => c.name == s) with - | d
          · rw [hfind] at hq; exact absurd hq (by simp)
          · rw [hfind] at hq ⊢
            cases d with
            | file fn => exact absurd hq (by simp)
            | dir dn dsym dl dch =>
              simp only [Bool.and_eq_true] at hq
              obtain ⟨hguards, hreach⟩ := hq
              show (!dsym && !excl.contains dn && !strStartsWith dn "." &&
                  reachableRepo excl (FSTree.dir dn dsym dl dch) (q' ++ step :: rest)) = false
              rw [ih _ hreach step rest]
              simp

/-- Node of the tree at a relative path: follow the first child matching each
component. -/
def nodeAt : List String → FSTree → Option FSTree
  | [], t => some t
  | step :: rest, t =>
    match t with
    | .file _ => none
    | .dir _ _ _ cs =>
      match cs.find? (fun c => c.name == step) with
      | none => none
      | some c => nodeAt rest c

theorem reachableRepo_nodeAt (excl : List String) (p : List String) :
    ∀ t : FSTree, reachableRepo excl t p = true →
      ∃ u, nodeAt p t = some u ∧ isGitRepo u = true := by
  induction p with
  | nil =>
    intro t hp
    rw [reachableRepo_nil] at hp
    exact ⟨t, rfl, hp⟩
  | cons step rest ih =>
    intro t hp
    cases t with
    | file n => rw [reachableRepo_cons_file] at hp; exact absurd hp (by simp)
    | dir n sy li cs =>
      rw [reachableRepo_cons_dir] at hp
      by_cases h1 : isGitRepo (FSTree.dir n sy li cs) = true
      · rw [if_pos h1] at hp; exact absurd hp (by simp)
      · rw [if_neg h1] at hp
        by_cases h2 : (!li) = true
        · rw [if_pos h2] at hp; exact absurd hp (by simp)
        · rw [if_neg h2] at hp
          rcases hfind : cs.find? (fun c => c.name == step) with - | d
          · rw [hfind] at hp; exact absurd hp (by simp)
          · rw [hfind] at hp
            cases d with
            | file fn => exact absurd hp (by simp)
            | dir dn dsym dl dch =>
              simp only [Bool.and_eq_true] at hp
              obtain ⟨-, hreach⟩ := hp
              obtain ⟨u, hu, hru⟩ := ih _ hreach
              exact ⟨u, by rw [nodeAt, hfind]; exact hu, hru⟩

theorem scan_of_repo_root (n : String) (sy li : Bool) (cs : List FSTree)
    (max_depth : Nat) (patterns : Option (List String))
    (hrepo : isGitRepo (FSTree.dir n sy li cs) = true) :
    scan (some (FSTree.dir n sy li cs)) max_depth patterns = Except.ok [[]] := by
  rw [scan_some_dir]
  have h1 : scan_directory max_depth (effective_excludes patterns)
      (FSTree.dir n sy li cs) 0 [] = [[]] := by
    unfold scan_directory
    rw [Nat.sub_zero, scanFrom_succ_dir, if_pos hrepo]
  rw [h1, List.mergeSort_singleton]

/-- C2: a visited directory that directly contains a `.git` subdirectory is
recorded as a repository root and not descended into; consequently, on any
well-formed directory tree, no returned path lies strictly inside another
returned path, and a root that is itself a repository yields exactly that one
root with no descent. -/
theorem scan_no_nested_repos (t : FSTree) (max_depth : Nat)
    (patterns : Option (List String)) (hwf : WFTree t) :
    (∀ (u : FSTree) (excl : List String) (depth : Nat) (pre : List String),
      isGitRepo u = true → depth ≤ max_depth →
        scan_directory max_depth excl u depth pre = [pre]) ∧
    (∀ res, scan (some t) max_depth patterns = Except.ok res →
      ∀ p ∈ res, ∀ q ∈ res, p ≠ q → ¬ p <+: q) ∧
    (isGitRepo t = true → scan (some t) max_depth patterns = Except.ok [[]]) := by
  refine ⟨?_, ?_, ?_⟩
  · intro u excl depth pre hrepo hdepth
    unfold scan_directory
    have hk : max_depth + 1 - depth = (max_depth - depth) + 1 := by omega
    rw [hk]
    cases u with
    | file n => simp [isGitRepo] at hrepo
    | dir n sy li cs => rw [scanFrom_succ_dir, if_pos hrepo]
  · intro res hres p hp q hq hne hpref
    cases t with
    | file n => simp [scan] at hres
    | dir n sy li cs =>
      rw [scan_some_dir] at hres
      injection hres with hres'
      subst hres'
      rw [List.mem_mergeSort] at hp hq
      unfold scan_directory at hp hq
      rw [Nat.sub_zero] at hp hq
      rw [scanFrom_mem _ _ _ hwf] at hp hq
      obtain ⟨qp, hqp, hreachp, -⟩ := hp
      obtain ⟨qq, hqq, hreachq, -⟩ := hq
      rw [List.nil_append] at hqp hqq
      subst hqp; subst hqq
      obtain ⟨d, hd⟩ := hpref
      cases d with
      | nil => exact hne (by simpa using hd)
      | cons step rest =>
        rw [← hd] at hreachq
        rw [reachableRepo_extend _ _ _ hreachp step rest] at hreachq
        exact absurd hreachq (by simp)
  · intro hrepo
    cases t with
    | file n => simp [isGitRepo] at hrepo
    | dir n sy li cs => exact scan_of_repo_root n sy li cs max_depth patterns hrepo

/-- Witness for C2: scanning a root that is itself a repository returns
exactly that root. -/
theorem scan_no_nested_repos_witness :
    scan (some (FSTree.dir "work" false true [FSTree.dir ".git" false true []]))
      10 none = Except.ok [[]] :=
  (scan_no_nested_repos
      (FSTree.dir "work" false true [FSTree.dir ".git" false true []]) 10 none
      (WFTree.dir _ _ _ _ (by decide) (by
        intro c hc
        rw [List.mem_singleton] at hc
        subst hc
        exact WFTree.dir _ _ _ _ (by decide)
          (fun c hc => absurd hc (List.not_mem_nil c))))).2.2 (by decide)

theorem scanFrom_unlistable (excl : List String) (fuel : Nat) (n : String)
    (sy : Bool) (cs : List FSTree) (pre : List String)
    (hrepo : isGitRepo (FSTree.dir n sy false cs) = false) :
    scanFrom excl fuel (FSTree.dir n sy false cs) pre = [] := by
  cases fuel with
  | zero => rw [scanFrom_zero]
  | succ fuel =>
    rw [scanFrom_succ_dir, if_neg (by simp [hrepo]), if_neg (by simp)]

/-- C3 (amended): `scan` raises `ScanError` when the root does not exist or
is not a directory; an OS error raised while listing a directory is swallowed
at that directory — at every level, the root included — so the branch
contributes no repositories, scanning elsewhere continues, and a traversal of
an existing directory root never raises. -/
theorem scan_error_handling (max_depth : Nat) (patterns : Option (List String)) :
    (scan none max_depth patterns = Except.error ScanErrorKind.pathDoesNotExist) ∧
    (∀ fn : String,
      scan (some (FSTree.file fn)) max_depth patterns =
        Except.error ScanErrorKind.notADirectory) ∧
    (∀ (n : String) (sy li : Bool) (cs : List FSTree),
      ∃ res, scan (some (FSTree.dir n sy li cs)) max_depth patterns = Except.ok res) ∧
    (∀ (excl : List String) (depth : Nat) (pre : List String) (n : String)
        (sy : Bool) (cs : List FSTree),
      isGitRepo (FSTree.dir n sy false cs) = false →
        scan_directory max_depth excl (FSTree.dir n sy false cs) depth pre = []) ∧
    (∀ (excl : List String) (fuel : Nat) (n cn : String) (sy csym : Bool)
        (ccs rest : List FSTree) (pre : List String),
      isGitRepo (FSTree.dir n sy true (FSTree.dir cn csym false ccs :: rest)) = false →
      isGitRepo (FSTree.dir cn csym false ccs) = false →
        scanFrom excl fuel (FSTree.dir n sy true (FSTree.dir cn csym false ccs :: rest)) pre =
          scanFrom excl fuel (FSTree.dir n sy true rest) pre) := by
  refine ⟨rfl, fun fn => rfl, fun n sy li cs => ⟨_, rfl⟩, ?_, ?_⟩
  · intro excl depth pre n sy cs hrepo
    unfold scan_directory
    exact scanFrom_unlistable excl _ n sy cs pre hrepo
  · intro excl fuel n cn sy csym ccs rest pre hp hc
    have hrest : isGitRepo (FSTree.dir n sy true rest) = false := by
      simp only [isGitRepo, List.any_cons, Bool.or_eq_false_iff] at hp
      simp [isGitRepo, hp.2]
    cases fuel with
    | zero => rw [scanFrom_zero, scanFrom_zero]
    | succ fuel =>
      have hL : scanFrom excl (fuel + 1)
          (FSTree.dir n sy true (FSTree.dir cn csym false ccs :: rest)) pre =
          scan_children excl (fun c pre' => scanFrom excl fuel c pre')
            (FSTree.dir cn csym false ccs :: rest) pre := by
        rw [scanFrom_succ_dir, if_neg (by simp [hp]), if_pos rfl]
      have hR : scanFrom excl (fuel + 1) (FSTree.dir n sy true rest) pre =
          scan_children excl (fun c pre' => scanFrom excl fuel c pre') rest pre := by
        rw [scanFrom_succ_dir, if_neg (by simp [hrest]), if_pos rfl]
      rw [hL, hR, scan_children]
      have hentry : scan_child_entry excl (fun c pre' => scanFrom excl fuel c pre')
          (FSTree.dir cn csym false ccs) pre = [] := by
        rw [scan_child_entry]
        split
        · rfl
        · split
          · rfl
          · split
            · rfl
            · exact scanFrom_unlistable excl fuel cn csym ccs (pre ++ [cn]) hc
      rw [hentry, List.nil_append]

/-- Witness for C3 (amended): a non-repository directory whose listing fails
contributes no repositories. -/
theorem scan_error_handling_witness :
    scan_directory 10 [] (FSTree.dir "top" false false []) 0 [] = [] :=
  (scan_error_handling 10 none).2.2.2.1 [] 0 [] "top" false [] (by decide)

/-- Counterexample for C3 as stated: an OS error while listing the root
itself (modelled by `listable = false`) does not raise `ScanError`; `scan`
swallows it and returns an empty result. -/
theorem scan_error_handling_counterexample :
    scan (some (FSTree.dir "root" false false [])) 10 none = Except.ok [] := by
  rw [scan_some_dir]
  have h : scan_directory 10 (effective_excludes none)
      (FSTree.dir "root" false false []) 0 [] = [] := by decide
  rw [h, List.mergeSort_nil]

/-- C7 (amended): on a well-formed tree, a path is in scan's result iff it is
a reachable repository (every ancestor on the path is a listable
non-repository directory and each step is a non-symlink directory whose name
is neither excluded nor hidden) AND its depth is at most `max_depth`.  In
particular, every returned repository lies at depth ≤ `max_depth`; but depth
alone does not suffice for inclusion — the claim's "iff D ≤ maxDepth" fails
on trees with an excluded, hidden, symlinked or unlistable ancestor (see the
counterexample). -/
theorem scan_max_depth (t : FSTree) (max_depth : Nat)
    (patterns : Option (List String)) (hwf : WFTree t) (res : List (List String))
    (hres : scan (some t) max_depth patterns = Except.ok res) (p : List String) :
    (p ∈ res ↔
      reachableRepo (effective_excludes patterns) t p = true ∧
        p.length ≤ max_depth) ∧
    (reachableRepo (effective_excludes patterns) t p = true →
      ∃ u, nodeAt p t = some u ∧ isGitRepo u = true) := by
  refine ⟨?_, reachableRepo_nodeAt _ _ _⟩
  cases t with
  | file n => simp [scan] at hres
  | dir n sy li cs =>
    rw [scan_some_dir] at hres
    injection hres with hres'
    subst hres'
    rw [List.mem_mergeSort]
    unfold scan_directory
    rw [Nat.sub_zero, scanFrom_mem _ _ _ hwf]
    constructor
    · rintro ⟨q, hq, hreach, hlen⟩
      rw [List.nil_append] at hq
      subst hq
      exact ⟨hreach, by omega⟩
    · rintro ⟨hreach, hlen⟩
      exact ⟨p, by simp, hreach, by omega⟩

/-- Witness for C7 (amended): on a clean one-level tree the repository at
depth 1 ≤ 10 is reachable and returned. -/
theorem scan_max_depth_witness :
    reachableRepo (effective_excludes none)
      (FSTree.dir "root" false true
        [FSTree.dir "a" false true [FSTree.dir ".git" false true []]]) ["a"] = true ∧
    (["a"] : List String).length ≤ 10 := by
  have hwf : WFTree (FSTree.dir "root" false true
      [FSTree.dir "a" false true [FSTree.dir ".git" false true []]]) := by
    refine WFTree.dir _ _ _ _ (by decide) ?_
    intro c hc
    rw [List.mem_singleton] at hc
    subst hc
    refine WFTree.dir _ _ _ _ (by decide) ?_
    intro c hc
    rw [List.mem_singleton] at hc
    subst hc
    exact WFTree.dir _ _ _ _ (by decide) (fun c hc => absurd hc (List.not_mem_nil c))
  have hres : scan (some (FSTree.dir "root" false true
      [FSTree.dir "a" false true [FSTree.dir ".git" false true []]])) 10 none =
      Except.ok [["a"]] := by
    rw [scan_some_dir]
    have h : scan_directory 10 (effective_excludes none)
        (FSTree.dir "root" false true
          [FSTree.dir "a" false true [FSTree.dir ".git" false true []]]) 0 [] =
        [["a"]] := by decide
    rw [h, List.mergeSort_singleton]
  exact (scan_max_depth _ 10 none hwf [["a"]] hres ["a"]).1.mp (by simp)

/-- A tree with a repository at depth 2 behind a hidden intermediate
directory: used to refute C7 as stated. -/
def hiddenRepoTree : FSTree :=
  .dir "root" false true
    [.dir ".hidden" false true
      [.dir "repo" false true [.dir ".git" false true []]]]

/-- Counterexample for C7 as stated: `hiddenRepoTree` has a repository at
depth 2 ≤ 10, yet `scan` with `max_depth = 10` returns nothing, because the
intermediate directory `.hidden` is skipped by the hidden-name rule.  Depth
alone therefore does not characterise inclusion. -/
theorem scan_max_depth_counterexample :
    (nodeAt [".hidden", "repo"] hiddenRepoTree).map isGitRepo = some true ∧
    ([".hidden", "repo"] : List String).length ≤ 10 ∧
    scan (some hiddenRepoTree) 10 none = Except.ok [] := by
  refine ⟨by decide, by decide, ?_⟩
  show scan (some (FSTree.dir "root" false true
    [FSTree.dir ".hidden" false true
      [FSTree.dir "repo" false true [FSTree.dir ".git" false true []]]])) 10 none =
    Except.ok []
  rw [scan_some_dir]
  have h : scan_directory 10 (effective_excludes none)
      (FSTree.dir "root" false true
        [FSTree.dir ".hidden" false true
          [FSTree.dir "repo" false true [FSTree.dir ".git" false true []]]]) 0 [] =
      [] := by decide
  rw [h, List.mergeSort_nil]

/-- C8: the scanner's effective exclusion set is exactly the union of the
caller-supplied patterns (none meaning the empty list) with the seven default
patterns; the defaults are always members, never replaced by the caller's
list. -/
theorem effective_excludes_spec :
    (∀ (patterns : Option (List String)) (x : String),
      x ∈ effective_excludes patterns ↔
        x ∈ patterns.getD [] ∨ x ∈ default_excludes) ∧
    (∀ patterns : Option (List String), ∀ d ∈ default_excludes,
      d ∈ effective_excludes patterns) ∧
    default_excludes =
      ["node_modules", "__pycache__", ".venv", "venv", ".tox", "build", "dist"] :=
  ⟨fun _ _ => List.mem_append,
   fun _ d hd => List.mem_append.mpr (Or.inr hd),
   rfl⟩

/-- Witness for C8: the default pattern "venv" is in the effective set even
when the caller supplies an unrelated pattern list. -/
theorem effective_excludes_spec_witness :
    "venv" ∈ effective_excludes (some ["custom"]) :=
  effective_excludes_spec.2.1 (some ["custom"]) "venv" (by decide)

/-- C10: the hidden-name rule, the exclusion-set rule and the symlink skip
apply only to child entries during descent, never to the scan root itself: a
root whose own name is hidden or excluded (or which is a symlink) and which
directly contains a `.git` directory is still returned as a repository. -/
theorem scan_root_not_filtered (n : String) (sy li : Bool) (cs : List FSTree)
    (max_depth : Nat) (patterns : Option (List String))
    (hname : strStartsWith n "." = true ∨
      (effective_excludes patterns).contains n = true ∨ sy = true)
    (hrepo : isGitRepo (FSTree.dir n sy li cs) = true) :
    scan (some (FSTree.dir n sy li cs)) max_depth patterns = Except.ok [[]] :=
  scan_of_repo_root n sy li cs max_depth patterns hrepo

/-- Witness for C10: a root named `node_modules` (a default exclusion) that
is a repository is still returned. -/
theorem scan_root_not_filtered_witness :
    scan (some (FSTree.dir "node_modules" false true
      [FSTree.dir ".git" false true []])) 5 none = Except.ok [[]] :=
  scan_root_not_filtered "node_modules" false true
    [FSTree.dir ".git" false true []] 5 none
    (Or.inr (Or.inl (by decide))) (by decide)

/-! ## Git operations (`src/gittyup/git_operations.py`) and the CLI loop -/

/-- Outcome of one `subprocess.run` invocation as the callers observe it:
normal completion (exit code, stdout, stderr) or one of the exception
classes the handlers distinguish (`otherError` is any other exception). -/
inductive ProcResult where
  | completed (returncode : Int) (stdout stderr : String)
  | timeoutExpired
  | subprocessError (msg : String)
  | otherError (msg : String)
deriving DecidableEq, Repr

/-- Embeds `GitOperations.pull_repository` (`git_operations.py` lines 50-93):
on exit code 0 the stripped stdout is tested for "Already up to date" or the
hyphenated "Already up-to-date"; on non-zero exit the message is the stripped
stderr, or the stripped stdout when the stderr strip is empty (Python
`stderr.strip() or stdout.strip()`); `TimeoutExpired`, `SubprocessError` and
any other exception are caught and become local failures. -/
def pull_repository (r : ProcResult) : Bool × String :=
  match r with
  | .completed rc stdout stderr =>
    if rc == 0 then
      let output := pyStrip stdout
      if strContains output "Already up to date" ||
          strContains output "Already up-to-date" then
        (true, "Already up to date")
      else
        (true, "Successfully updated")
    else
      let error_msg :=
        if (pyStrip stderr).data = [] then pyStrip stdout else pyStrip stderr
      (false, error_msg)
  | .timeoutExpired => (false, "Operation timed out")
  | .subprocessError e => (false, "Git error: " ++ e)
  | .otherError e => (false, "Unexpected error: " ++ e)

/-- Embeds `GitOperations.get_repository_status` (`git_operations.py` lines
95-130): `git status --porcelain`; non-zero exit → "Unable to get status",
empty stripped stdout → clean, otherwise "Uncommitted changes";
`TimeoutExpired` and `SubprocessError` are caught; `none` models an
exception no handler catches. -/
def get_repository_status (r : ProcResult) : Option (Bool × String) :=
  match r with
  | .completed rc stdout _ =>
    if rc != 0 then some (false, "Unable to get status")
    else if (pyStrip stdout).data = [] then some (true, "Clean")
    else some (false, "Uncommitted changes")
  | .timeoutExpired => some (false, "Timeout checking status")
  | .subprocessError _ => some (false, "Error checking status")
  | .otherError _ => none

/-- Embeds `GitOperations.has_upstream` (`git_operations.py` lines 132-152):
exit code 0 of the upstream query; both caught exception classes yield
`false`; `none` models an uncaught exception. -/
def has_upstream (r : ProcResult) : Option Bool :=
  match r with
  | .completed rc _ _ => some (rc == 0)
  | .timeoutExpired => some false
  | .subprocessError _ => some false
  | .otherError _ => none

/-- Oracle environment of one repository in the CLI update loop: what the
status query, the upstream query and the pull command would each return. -/
structure RepoEnv where
  statusProc : ProcResult
  upstreamProc : ProcResult
  pullProc : ProcResult
deriving DecidableEq, Repr

/-- Outcome the CLI loop reaches for one repository. -/
inductive CliOutcome where
  | skipped (msg : String)
  | dryRun
  | updated (msg : String)
  | errored (msg : String)
deriving DecidableEq, Repr

/-- One iteration of the CLI loop: the outcome, whether a pull command was
issued, and whether the status query was issued. -/
structure CliStep where
  outcome : CliOutcome
  pullIssued : Bool
  statusQueried : Bool
deriving DecidableEq, Repr

/-- The part of the CLI loop body after the dirty check (`cli.py` lines
240-265): skip without upstream, stop before the pull in dry-run mode,
otherwise classify the pull result. -/
def process_repo_after_status (dry_run statusQueried : Bool) (env : RepoEnv) :
    Option CliStep :=
  match has_upstream env.upstreamProc with
  | none => none
  | some up =>
    if !up then some ⟨.skipped "No upstream configured", false, statusQueried⟩
    else if dry_run then some ⟨.dryRun, false, statusQueried⟩
    else
      let res := pull_repository env.pullProc
      if res.1 then some ⟨.updated res.2, true, statusQueried⟩
      else some ⟨.errored res.2, true, statusQueried⟩

/-- Embeds the body of the CLI update loop (`cli.py` lines 225-265) for one
repository: the status query runs only when `skip_dirty` is on and dry-run
is off, and a not-clean answer skips the repository before anything else;
`none` models an exception escaping the loop. -/
def process_repo (skip_dirty dry_run : Bool) (env : RepoEnv) : Option CliStep :=
  if skip_dirty && !dry_run then
    match get_repository_status env.statusProc with
    | none => none
    | some st =>
      if !st.1 then some ⟨.skipped st.2, false, true⟩
      else process_repo_after_status dry_run true env
  else process_repo_after_status dry_run false env

/-- The CLI loop over the discovered repositories, in order. -/
def run_repos (skip_dirty dry_run : Bool) : List RepoEnv → Option (List CliStep)
  | [] => some []
  | env :: rest =>
    match process_repo skip_dirty dry_run env with
    | none => none
    | some step =>
      match run_repos skip_dirty dry_run rest with
      | none => none
      | some steps => some (step :: steps)

theorem dropWhile_of_head_false (p : List Char) (b : List Char) (hne : p ≠ [])
    (hh : Char.isWhitespace (p.head hne) = false) :
    List.dropWhile Char.isWhitespace (p ++ b) = p ++ b := by
  cases p with
  | nil => exact absurd rfl hne
  | cons c t =>
    have hc : ¬ Char.isWhitespace c = true := by simpa using hh
    rw [List.cons_append, List.dropWhile_cons_of_neg hc]

theorem infix_dropWhile_of_head (p : List Char) (hne : p ≠ [])
    (hh : Char.isWhitespace (p.head hne) = false) :
    ∀ a b : List Char, p <:+: List.dropWhile Char.isWhitespace (a ++ p ++ b) := by
  intro a
  induction a with
  | nil =>
    intro b
    rw [List.nil_append, dropWhile_of_head_false p b hne hh]
    exact ⟨[], b, rfl⟩
  | cons x a' ih =>
    intro b
    rw [List.cons_append, List.cons_append, List.dropWhile_cons]
    split
    · exact ih b
    · exact List.infix_cons ⟨a', b, rfl⟩

theorem infix_dropWhile_iff (p l : List Char) (hne : p ≠ [])
    (hh : Char.isWhitespace (p.head hne) = false) :
    p <:+: List.dropWhile Char.isWhitespace l ↔ p <:+: l := by
  constructor
  · intro h
    exact h.trans (List.dropWhile_suffix _).isInfix
  · rintro ⟨a, b, hab⟩
    rw [← hab]
    exact infix_dropWhile_of_head p hne hh a b

theorem infix_rstrip_iff (p l : List Char) (hne : p ≠ [])
    (hl : Char.isWhitespace (p.getLast hne) = false) :
    p <:+: (List.dropWhile Char.isWhitespace l.reverse).reverse ↔ p <:+: l := by
  have hrev : p.reverse ≠ [] := by simpa using hne
  have hhead : Char.isWhitespace (p.reverse.head hrev) = false := by
    rw [List.head_reverse]
    exact hl
  constructor
  · intro h
    have h1 : p.reverse <:+: List.dropWhile Char.isWhitespace l.reverse := by
      have := List.reverse_infix.mpr h
      simpa using this
    have h2 : p.reverse <:+: l.reverse := (infix_dropWhile_iff _ _ hrev hhead).mp h1
    exact List.reverse_infix.mp (by simpa using h2)
  · intro h
    have h1 : p.reverse <:+: l.reverse := by
      have := List.reverse_infix.mpr h
      simpa using this
    have h2 : p.reverse <:+: List.dropWhile Char.isWhitespace l.reverse :=
      (infix_dropWhile_iff _ _ hrev hhead).mpr h1
    have := List.reverse_infix.mpr h2
    simpa using this

theorem strContains_pyStrip (s p : String) (hne : p.data ≠ [])
    (hh : Char.isWhitespace (p.data.head hne) = false)
    (hl : Char.isWhitespace (p.data.getLast hne) = false) :
    strContains (pyStrip s) p = strContains s p := by
  have hiff : strContains (pyStrip s) p = true ↔ strContains s p = true := by
    rw [strContains_iff, strContains_iff]
    show p.data <:+: pyStripList s.data ↔ p.data <:+: s.data
    unfold pyStripList
    rw [infix_rstrip_iff _ _ hne hl, infix_dropWhile_iff _ _ hne hh]
  cases h1 : strContains (pyStrip s) p <;> cases h2 : strContains s p
  · rfl
  · exact absurd (hiff.mpr h2) (by simp [h1])
  · exact absurd (hiff.mp h1) (by simp [h2])
  · rfl

/-- Oracle environment for the spec-modelled updater: repository path and
branch, the dirty and upstream query answers, the update command outcome and
the best-effort commit count parsed from the change summary. -/
structure PullEnv where
  path : List String
  branch : Option String
  dirty : Bool
  upstream : Bool
  proc : ProcResult
  parsedCommits : Nat
deriving DecidableEq, Repr

/-- Modelled from the spec: the legacy package's `pull_repository` that
builds a `RepoStatus` is missing from the sources (its module
`gittyup/git_operations.py` is absent; only `gittyup/models.py` and the
tests that exercise it remain), so this follows the specification's
RepositoryUpdater state machine (§4.4): a dirty repository with `skipDirty`
→ Skipped / "Uncommitted changes" / hasUncommittedChanges; no upstream →
Skipped / "No upstream configured"; exit 0 with output containing
"Already up to date" (or hyphenated) → Success with that message and
commitsPulled 0; any other exit-0 output → Success keeping the raw output as
message with a positive best-effort count (`max 1 parsedCommits`, never 0);
non-zero exit and the caught exceptions → Failed with a descriptive error. -/
def spec_pull (skip_dirty : Bool) (env : PullEnv) : RepoStatus :=
  if env.dirty && skip_dirty then
    { path := env.path, state := .skipped, branch := env.branch,
      message := "Uncommitted changes", has_uncommitted_changes := true }
  else if !env.upstream then
    { path := env.path, state := .skipped, branch := env.branch,
      message := "No upstream configured" }
  else
    match env.proc with
    | .completed rc stdout stderr =>
      if rc == 0 then
        if strContains (pyStrip stdout) "Already up to date" ||
            strContains (pyStrip stdout) "Already up-to-date" then
          { path := env.path, state := .success, branch := env.branch,
            message := "Already up to date", commits_pulled := 0 }
        else
          { path := env.path, state := .success, branch := env.branch,
            message := pyStrip stdout,
            commits_pulled := max 1 env.parsedCommits }
      else
        { path := env.path, state := .failed, branch := env.branch,
          message := "Pull failed",
          error := some (if (pyStrip stderr).data = [] then pyStrip stdout
            else pyStrip stderr) }
    | .timeoutExpired =>
      { path := env.path, state := .failed, branch := env.branch,
        message := "Pull failed", error := some "Operation timed out" }
    | .subprocessError e =>
      { path := env.path, state := .failed, branch := env.branch,
        message := "Pull failed", error := some ("Git error: " ++ e) }
    | .otherError e =>
      { path := env.path, state := .failed, branch := env.branch,
        message := "Pull failed", error := some ("Unexpected error: " ++ e) }

theorem pull_repository_exit_zero (stdout stderr : String) :
    pull_repository (ProcResult.completed 0 stdout stderr) =
      if strContains (pyStrip stdout) "Already up to date" ||
          strContains (pyStrip stdout) "Already up-to-date" then
        (true, "Already up to date")
      else (true, "Successfully updated") := by
  unfold pull_repository
  simp

theorem spec_pull_cases (skip_dirty : Bool) (env : PullEnv) :
    ((spec_pull skip_dirty env).state = RepoState.skipped ∧
      (spec_pull skip_dirty env).commits_pulled = 0) ∨
    ((spec_pull skip_dirty env).state = RepoState.failed ∧
      (spec_pull skip_dirty env).commits_pulled = 0) ∨
    ((spec_pull skip_dirty env).state = RepoState.success ∧
      (spec_pull skip_dirty env).message = "Already up to date" ∧
      (spec_pull skip_dirty env).commits_pulled = 0) ∨
    ((spec_pull skip_dirty env).state = RepoState.success ∧
      strContains (spec_pull skip_dirty env).message "Already up to date" = false ∧
      0 < (spec_pull skip_dirty env).commits_pulled) := by
  unfold spec_pull
  split
  · exact Or.inl ⟨rfl, rfl⟩
  split
  · exact Or.inl ⟨rfl, rfl⟩
  split
  · split
    · split
      · exact Or.inr (Or.inr (Or.inl ⟨rfl, rfl, rfl⟩))
      · next h4 =>
        refine Or.inr (Or.inr (Or.inr ⟨rfl, ?_, ?_⟩))
        · show strContains (pyStrip _) "Already up to date" = false
          simp only [Bool.or_eq_true, not_or] at h4
          simpa using h4.1
        · show 0 < max 1 env.parsedCommits
          exact Nat.lt_of_lt_of_le Nat.one_pos (Nat.le_max_left _ _)
    · exact Or.inr (Or.inl ⟨rfl, rfl⟩)
  · exact Or.inr (Or.inl ⟨rfl, rfl⟩)
  · exact Or.inr (Or.inl ⟨rfl, rfl⟩)
  · exact Or.inr (Or.inl ⟨rfl, rfl⟩)

/-- C4: a pull whose command exits 0 is a success, and its message equals
"Already up to date" iff the command's output contains "Already up to date"
or the hyphenated "Already up-to-date" (the source strips the output first;
stripping cannot create or destroy an occurrence).  In the spec-modelled
updater, a Success result with message "Already up to date" always has
`commits_pulled = 0`, and a Success result with `commits_pulled > 0` never
has that exact message. -/
theorem pull_success_classification (stdout stderr : String) :
    ((pull_repository (ProcResult.completed 0 stdout stderr)).1 = true) ∧
    ((pull_repository (ProcResult.completed 0 stdout stderr)).2 =
        "Already up to date" ↔
      (strContains stdout "Already up to date" = true ∨
        strContains stdout "Already up-to-date" = true)) ∧
    (∀ (skip_dirty : Bool) (env : PullEnv),
      ((spec_pull skip_dirty env).state = RepoState.success →
        (spec_pull skip_dirty env).message = "Already up to date" →
        (spec_pull skip_dirty env).commits_pulled = 0) ∧
      ((spec_pull skip_dirty env).state = RepoState.success →
        0 < (spec_pull skip_dirty env).commits_pulled →
        (spec_pull skip_dirty env).message ≠ "Already up to date")) := by
  have hA : strContains (pyStrip stdout) "Already up to date" =
      strContains stdout "Already up to date" :=
    strContains_pyStrip stdout "Already up to date" (by decide) (by decide) (by decide)
  have hB : strContains (pyStrip stdout) "Already up-to-date" =
      strContains stdout "Already up-to-date" :=
    strContains_pyStrip stdout "Already up-to-date" (by decide) (by decide) (by decide)
  refine ⟨?_, ?_, ?_⟩
  · rw [pull_repository_exit_zero]
    split <;> rfl
  · rw [pull_repository_exit_zero]
    by_cases hcond : (strContains (pyStrip stdout) "Already up to date" ||
        strContains (pyStrip stdout) "Already up-to-date") = true
    · rw [if_pos hcond]
      rw [hA, hB] at hcond
      simp only [Bool.or_eq_true] at hcond
      exact ⟨fun _ => hcond, fun _ => rfl⟩
    · rw [if_neg hcond]
      rw [hA, hB] at hcond
      constructor
      · intro habs
        exact absurd habs (by decide)
      · intro hor
        exact absurd (by simpa using hor) hcond
  · intro skip_dirty env
    rcases spec_pull_cases skip_dirty env with ⟨hs, hc⟩ | ⟨hs, hc⟩ | ⟨hs, hm, hc⟩ | ⟨hs, hm, hc⟩
    · exact ⟨fun h _ => absurd (hs.symm.trans h) (by decide),
        fun h _ => absurd (hs.symm.trans h) (by decide)⟩
    · exact ⟨fun h _ => absurd (hs.symm.trans h) (by decide),
        fun h _ => absurd (hs.symm.trans h) (by decide)⟩
    · refine ⟨fun _ _ => hc, fun _ hpos => ?_⟩
      rw [hc] at hpos
      exact absurd hpos (by decide)
    · constructor
      · intro _ hmsg
        rw [hmsg] at hm
        exact absurd hm (by decide)
      · intro _ _ hmsg
        rw [hmsg] at hm
        exact absurd hm (by decide)

/-- Witness for C4: a pull with output "Already up to date." reports success
with the exact message "Already up to date". -/
theorem pull_success_classification_witness :
    (pull_repository (ProcResult.completed 0 "Already up to date." "")).1 = true ∧
    (pull_repository (ProcResult.completed 0 "Already up to date." "")).2 =
      "Already up to date" :=
  ⟨(pull_success_classification "Already up to date." "").1,
   (pull_success_classification "Already up to date." "").2.1.mpr
     (Or.inl (by decide))⟩

/-- C5: when the status query is issued (skipDirty on, dry-run off) and
reports uncommitted changes (exit code 0, nonempty stripped porcelain
output), the CLI records Skipped with message "Uncommitted changes" and
issues no pull command; and the spec-modelled updater's result for a dirty
repository under skipDirty is Skipped with message "Uncommitted changes" and
`has_uncommitted_changes = true`, also without reaching the pull command. -/
theorem skip_dirty_behaviour (stdout stderr : String) (env : RepoEnv)
    (hstat : env.statusProc = ProcResult.completed 0 stdout stderr)
    (hdirty : (pyStrip stdout).data ≠ []) :
    process_repo true false env =
      some ⟨CliOutcome.skipped "Uncommitted changes", false, true⟩ ∧
    (∀ penv : PullEnv, penv.dirty = true →
      (spec_pull true penv).state = RepoState.skipped ∧
      (spec_pull true penv).message = "Uncommitted changes" ∧
      (spec_pull true penv).has_uncommitted_changes = true) := by
  constructor
  · have hq : get_repository_status env.statusProc =
        some (false, "Uncommitted changes") := by
      rw [hstat]
      simp [get_repository_status, hdirty]
    simp [process_repo, hq]
  · intro penv hd
    unfold spec_pull
    rw [if_pos (by simp [hd])]
    exact ⟨rfl, rfl, rfl⟩

/-- Witness for C5: a repository whose porcelain status lists a modified file
is skipped with "Uncommitted changes" and no pull is issued. -/
theorem skip_dirty_behaviour_witness :
    process_repo true false
      ⟨ProcResult.completed 0 " M file.txt" "", ProcResult.completed 0 "main" "",
        ProcResult.completed 0 "" ""⟩ =
      some ⟨CliOutcome.skipped "Uncommitted changes", false, true⟩ :=
  (skip_dirty_behaviour " M file.txt" ""
      ⟨ProcResult.completed 0 " M file.txt" "", ProcResult.completed 0 "main" "",
        ProcResult.completed 0 "" ""⟩
      rfl (by decide)).1

theorem process_repo_isSome (skip_dirty dry_run : Bool) (env : RepoEnv)
    (hst : get_repository_status env.statusProc ≠ none)
    (hup : has_upstream env.upstreamProc ≠ none) :
    process_repo skip_dirty dry_run env ≠ none := by
  have hafter : ∀ sq : Bool, process_repo_after_status dry_run sq env ≠ none := by
    intro sq
    rcases hu : has_upstream env.upstreamProc with - | up
    · exact absurd hu hup
    · simp only [process_repo_after_status, hu]
      split
      · simp
      · split
        · simp
        · split <;> simp
  unfold process_repo
  split
  · rcases hs : get_repository_status env.statusProc with - | st
    · exact absurd hs hst
    · simp only [hs]
      split
      · simp
      · exact hafter true
  · exact hafter false

/-- C6: a pull whose external command exceeds the timeout returns a local
failure whose message contains "timed out" (the `TimeoutExpired` handler —
no exception propagates); with an upstream configured the CLI classifies it
as an error for that repository only; and the loop still yields exactly one
outcome per repository, so the run proceeds past the timed-out one. -/
theorem pull_timeout_behaviour (skip_dirty : Bool) :
    (pull_repository ProcResult.timeoutExpired = (false, "Operation timed out")) ∧
    (strContains (pull_repository ProcResult.timeoutExpired).2 "timed out" = true) ∧
    (∀ env : RepoEnv, env.pullProc = ProcResult.timeoutExpired →
      has_upstream env.upstreamProc = some true →
      process_repo false false env =
        some ⟨CliOutcome.errored "Operation timed out", true, false⟩) ∧
    (∀ envs : List RepoEnv,
      (∀ e ∈ envs, get_repository_status e.statusProc ≠ none ∧
        has_upstream e.upstreamProc ≠ none) →
      ∃ steps, run_repos skip_dirty false envs = some steps ∧
        steps.length = envs.length) := by
  refine ⟨rfl, by decide, ?_, ?_⟩
  · intro env hpull hup
    simp [process_repo, process_repo_after_status, hup, hpull, pull_repository]
  · intro envs hok
    induction envs with
    | nil => exact ⟨[], rfl, rfl⟩
    | cons env rest ih =>
      obtain ⟨steps, hrun, hlen⟩ :=
        ih (fun e he => hok e (List.mem_cons_of_mem env he))
      have hsome := process_repo_isSome skip_dirty false env
        (hok env (List.mem_cons_self env rest)).1
        (hok env (List.mem_cons_self env rest)).2
      rcases hp : process_repo skip_dirty false env with - | step
      · exact absurd hp hsome
      · refine ⟨step :: steps, ?_, by simp [hlen]⟩
        simp only [run_repos, hp, hrun]

/-- Witness for C6: a repository whose pull times out is classified as an
error with message "Operation timed out", with the pull having been issued. -/
theorem pull_timeout_behaviour_witness :
    process_repo false false
      ⟨ProcResult.completed 0 "" "", ProcResult.completed 0 "main" "",
        ProcResult.timeoutExpired⟩ =
      some ⟨CliOutcome.errored "Operation timed out", true, false⟩ :=
  ((pull_timeout_behaviour false).2.2.1)
    ⟨ProcResult.completed 0 "" "", ProcResult.completed 0 "main" "",
      ProcResult.timeoutExpired⟩ rfl (by decide)
